/-
  Verification of an intrusive reference-counted smart pointer
  (`intrusive_ptr<T>` / `intrusive_ref_counter<T>` with the free
  customization points `intrusive_ptr_add_ref` / `intrusive_ptr_release`)
  against its natural-language specification.

  The embedding models:
  - objects as abstract ids (`ObjId`), raw pointers as `Option ObjId`
    (`none` is the null pointer);
  - the embedded counter of `intrusive_ref_counter` (a
    `std::atomic<size_t>` on a 64-bit platform) as a `Nat` reduced
    modulo `WORD = 2 ^ 64`;
  - a heap as a map from object ids to `Option Nat`: `some c` is a live
    object whose counter holds `c`, and `none` an object that has been
    destroyed (deleted by `intrusive_ptr_release`);
  - a single `intrusive_ptr<T>` handle as a structure holding its one
    `ptr` field, with each member function embedded as a pure function
    from (handle, heap) to its results;
  - sequences of handle operations as a small-step operational
    semantics (`applyOp` / `runOps`) over a state (`WState`) carrying
    the heap, the list of handle slots created so far, and the
    per-object number of references handed out by `detach` and not yet
    released.
-/
import Mathlib

namespace IntrusivePtr

/-- Modulus of the embedded counter: `std::atomic<size_t>` arithmetic on a
64-bit platform wraps modulo `2 ^ 64`. -/
def WORD : Nat := 2 ^ 64

/-- Counter update performed by `intrusive_ptr_add_ref`:
`p->ref_counter.fetch_add(1, std::memory_order_acq_rel)`. -/
def intrusive_ptr_add_ref (c : Nat) : Nat := (c + 1) % WORD

/-- Counter update performed by `intrusive_ptr_release`:
`fetch_sub(1, ...)`; when the value observed immediately before the
decrement is `1`, the object is deleted
(`delete static_cast<const Derived*>(p)`, modelled as `none`); otherwise
it stays alive with the decremented (wrapping `size_t`) counter. -/
def intrusive_ptr_release (c : Nat) : Option Nat :=
  if c = 1 then none else some ((c + (WORD - 1)) % WORD)

/-- Counter value of a default-constructed `intrusive_ref_counter`:
`intrusive_ref_counter() noexcept : ref_counter(0)`. -/
def ref_counter_default : Nat := 0

/-- Counter value of a copy-constructed `intrusive_ref_counter`:
`intrusive_ref_counter(const intrusive_ref_counter& v) noexcept : ref_counter(0)` —
the source's counter is ignored. -/
def ref_counter_copy (_v : Nat) : Nat := 0

/-- Width of `unsigned int`: the return type of `use_count()`. -/
def UINT : Nat := 2 ^ 32

/-- `use_count()`: `ref_counter.load(std::memory_order_acquire)` returned
as `unsigned int`, so the loaded `size_t` is truncated modulo `2 ^ 32`
by the return conversion. -/
def use_count (c : Nat) : Nat := c % UINT

abbrev ObjId := Nat

abbrev Ptr := Option ObjId

abbrev Heap := ObjId → Option Nat

/-- Effect of `intrusive_ptr_add_ref(p)` on the heap, at the object `o`
that `p` points to. -/
def addRefAt (h : Heap) (o : ObjId) : Heap :=
  fun x => if x = o then (h x).map intrusive_ptr_add_ref else h x

/-- Effect of `intrusive_ptr_release(p)` on the heap, at the object `o`
that `p` points to. -/
def releaseAt (h : Heap) (o : ObjId) : Heap :=
  fun x => if x = o then (h x).bind intrusive_ptr_release else h x

/-- Heap effect of `if (ptr != nullptr) { intrusive_ptr_add_ref(ptr); }`. -/
def maybeAddRef (p : Ptr) (h : Heap) : Heap :=
  match p with
  | some o => addRefAt h o
  | none => h

/-- Heap effect of `if (ptr != nullptr) { intrusive_ptr_release(ptr); }`
(the body of the `intrusive_ptr` destructor). -/
def maybeRelease (p : Ptr) (h : Heap) : Heap :=
  match p with
  | some o => releaseAt h o
  | none => h

/-- An `intrusive_ptr<T>` value: exactly one raw-pointer field `ptr`,
default-initialized to `nullptr` (`T* ptr{nullptr}`). -/
structure iptr where
  ptr : Ptr
deriving DecidableEq

/-- `get()`: returns the raw pointer without affecting ownership. -/
def iptr.get (a : iptr) : Ptr := a.ptr

/-- `intrusive_ptr()`: the empty handle. -/
def iptrDefault : iptr := ⟨none⟩

/-- `intrusive_ptr(T* p, bool add_ref = true)`: stores `p`; calls
`intrusive_ptr_add_ref(p)` exactly when `p != nullptr && add_ref`. -/
def iptrCtor (p : Ptr) (b : Bool) (h : Heap) : iptr × Heap :=
  match p, b with
  | some o, true => (⟨some o⟩, addRefAt h o)
  | _, _ => (⟨p⟩, h)

/-- Destructor of `intrusive_ptr`: releases the held reference if any. -/
def iptrDtor (a : iptr) (h : Heap) : Heap := maybeRelease a.ptr h

/-- `swap`: exchanges the raw pointers of two handles; no count traffic.
The result is (new first argument, new second argument). -/
def iptrSwap (a b : iptr) : iptr × iptr := (⟨b.ptr⟩, ⟨a.ptr⟩)

/-- The copy-then-swap body `intrusive_ptr(r, b).swap(*this)` followed by
the temporary's destruction, as used by `reset` and the assignment
operators: build the temporary from the raw pointer `r` (acquiring iff
`b`), swap it with the handle `a`, destroy the temporary (releasing the
handle's old pointer). -/
def ctorSwapDtor (a : iptr) (r : Ptr) (b : Bool) (h : Heap) : iptr × Heap :=
  let t := iptrCtor r b h
  let sw := iptrSwap t.1 a
  (sw.2, iptrDtor sw.1 t.2)

/-- `reset()`: `if (ptr != nullptr) { intrusive_ptr().swap(*this); }`. -/
def resetV (a : iptr) (h : Heap) : iptr × Heap :=
  if a.ptr = none then (a, h)
  else
    let sw := iptrSwap iptrDefault a
    (sw.2, iptrDtor sw.1 h)

/-- `reset(T* r)`: `if (ptr != r) { intrusive_ptr(r).swap(*this); }`. -/
def resetP (a : iptr) (r : Ptr) (h : Heap) : iptr × Heap :=
  if a.ptr = r then (a, h) else ctorSwapDtor a r true h

/-- `reset(T* r, bool add_ref)`: `intrusive_ptr(r, add_ref).swap(*this);`
with no pointer-equality guard. -/
def resetPB (a : iptr) (r : Ptr) (b : Bool) (h : Heap) : iptr × Heap :=
  ctorSwapDtor a r b h

/-- `operator=(T* r)`: `if (ptr != r) { intrusive_ptr(r).swap(*this); }`. -/
def assignP (a : iptr) (r : Ptr) (h : Heap) : iptr × Heap :=
  if a.ptr = r then (a, h) else ctorSwapDtor a r true h

/-- `detach()`: returns the raw pointer and clears the handle to null
without releasing. -/
def iptrDetach (a : iptr) : Ptr × iptr := (a.ptr, ⟨none⟩)

/-- `operator*()`: `assert(ptr != nullptr); return *ptr;`. The first
component is `none` exactly when the assertion fires (null handle),
otherwise the dereferenced object; handle and heap are untouched. -/
def derefStar (a : iptr) (h : Heap) : Option ObjId × iptr × Heap :=
  match a.ptr with
  | none => (none, a, h)
  | some o => (some o, a, h)

/-- `operator->()`: `assert(ptr != nullptr); return ptr;`. The first
component is `none` exactly when the assertion fires (null handle),
otherwise `some` of the stored pointer; handle and heap are untouched. -/
def derefArrow (a : iptr) (h : Heap) : Option Ptr × iptr × Heap :=
  match a.ptr with
  | none => (none, a, h)
  | some o => (some (some o), a, h)

/-- `operator==(intrusive_ptr, intrusive_ptr)`: `a.get() == b.get()`. -/
def eqPP (a b : iptr) : Bool := decide (a.get = b.get)

/-- `operator!=(intrusive_ptr, intrusive_ptr)`: `a.get() != b.get()`. -/
def nePP (a b : iptr) : Bool := decide (a.get ≠ b.get)

/-- `operator==(intrusive_ptr, U*)`: `a.get() == b`. -/
def eqPR (a : iptr) (b : Ptr) : Bool := decide (a.get = b)

/-- `operator!=(intrusive_ptr, U*)`: `a.get() != b`. -/
def nePR (a : iptr) (b : Ptr) : Bool := decide (a.get ≠ b)

/-- `operator==(T*, intrusive_ptr)`: `a == b.get()`. -/
def eqRP (a : Ptr) (b : iptr) : Bool := decide (a = b.get)

/-- `operator!=(T*, intrusive_ptr)`: `a != b.get()`. -/
def neRP (a : Ptr) (b : iptr) : Bool := decide (a ≠ b.get)

/-- The claim's reading of `reset(rawPtr)`: first release the previously
held reference, then adopt `rawPtr` with acquisition (one
`intrusive_ptr_add_ref` when non-null). Stated from the specification's
words, for comparison with the source's `resetP`. -/
def resetPClaimed (a : iptr) (r : Ptr) (h : Heap) : iptr × Heap :=
  iptrCtor r true (maybeRelease a.ptr h)

/-- One handle slot of the operational model: a handle that is still in
scope (with its current `ptr` field), or one whose destructor has run. -/
inductive HSlot where
  | live (p : Ptr)
  | dead
deriving DecidableEq

/-- Whole-program state: the heap of reference-counted objects, every
handle created so far (identified by its position in the list), and the
number of references per object handed out by `detach()` and not yet
released. -/
structure WState where
  cnt : Heap
  handles : List HSlot
  detached : ObjId → Nat

/-- Read the pointer stored in handle slot `i`, provided that handle is
still in scope. -/
def getLive : List HSlot → Nat → Option Ptr
  | [], _ => none
  | v :: _, 0 =>
    match v with
    | HSlot.live p => some p
    | HSlot.dead => none
  | _ :: t, n + 1 => getLive t n

/-- Replace handle slot `i`. -/
def setSlot : List HSlot → Nat → HSlot → List HSlot
  | [], _, _ => []
  | _ :: t, 0, v => v :: t
  | u :: t, n + 1, v => u :: setSlot t n v

/-- Contribution of one handle slot to the reference count of object `o`:
`1` when it is a live handle whose `ptr` points at `o`. -/
def slotWeight (v : HSlot) (o : ObjId) : Nat :=
  if v = HSlot.live (some o) then 1 else 0

/-- Contribution of one raw pointer to the reference count of object `o`. -/
def ptrWeight (p : Ptr) (o : ObjId) : Nat :=
  if p = some o then 1 else 0

/-- Number of live handles currently holding a reference to `o`. -/
def holdingCount : List HSlot → ObjId → Nat
  | [], _ => 0
  | v :: t, o => slotWeight v o + holdingCount t o

/-- Net outstanding references to `o`: live handles holding a reference
plus references detached and not yet released. -/
def refs (s : WState) (o : ObjId) : Nat :=
  holdingCount s.handles o + s.detached o

/-- Record an extra detached reference for the object `p` points at. -/
def bumpDetached (p : Ptr) (d : ObjId → Nat) : ObjId → Nat :=
  match p with
  | some o => fun x => if x = o then d x + 1 else d x
  | none => d

/-- A raw pointer handed to the facility must be null or point to a live
object. -/
def alivePre (h : Heap) (p : Ptr) : Bool :=
  match p with
  | some o => (h o).isSome
  | none => true

/-- The handle operations of the claims, acting on handles identified by
their slot index: construction from a raw pointer with `add_ref = true`
(`newRaw`), copy construction (`copyCon`), copy assignment
(`copyAssign`, with the source's `this != &r` self-assignment guard),
move construction (`moveCon`), move assignment (`moveAssign`, with the
`this != &r` guard), `reset()` (`resetNull`), `reset(T*)` (`resetPtr`,
with the `ptr != r` guard), `detach()` (`detachOp`) and handle
destruction (`destruct`). -/
inductive Op where
  | newRaw (p : Ptr)
  | copyCon (i : Nat)
  | copyAssign (i j : Nat)
  | moveCon (i : Nat)
  | moveAssign (i j : Nat)
  | resetNull (i : Nat)
  | resetPtr (i : Nat) (p : Ptr)
  | detachOp (i : Nat)
  | destruct (i : Nat)
deriving DecidableEq

/-- Small-step semantics of one handle operation, mirroring the source:
every acquisition is `intrusive_ptr_add_ref`, every release is
`intrusive_ptr_release` (through `maybeAddRef` / `maybeRelease`), and
the copy-then-swap bodies acquire the new pointer before releasing the
old one. `none` when the operation's preconditions fail (bad slot index,
handle already destructed, raw pointer to a destroyed object). -/
def applyOp (op : Op) (s : WState) : Option WState :=
  match op with
  | Op.newRaw p =>
    if alivePre s.cnt p then
      some { s with handles := s.handles ++ [HSlot.live p],
                    cnt := maybeAddRef p s.cnt }
    else none
  | Op.copyCon i =>
    match getLive s.handles i with
    | some p =>
      some { s with handles := s.handles ++ [HSlot.live p],
                    cnt := maybeAddRef p s.cnt }
    | none => none
  | Op.copyAssign i j =>
    match getLive s.handles i, getLive s.handles j with
    | some pi, some pj =>
      if i = j then some s
      else
        some { s with handles := setSlot s.handles i (HSlot.live pj),
                      cnt := maybeRelease pi (maybeAddRef pj s.cnt) }
    | _, _ => none
  | Op.moveCon i =>
    match getLive s.handles i with
    | some p =>
      some { s with handles := setSlot s.handles i (HSlot.live none) ++ [HSlot.live p] }
    | none => none
  | Op.moveAssign i j =>
    match getLive s.handles i, getLive s.handles j with
    | some pi, some pj =>
      if i = j then some s
      else
        some { s with handles := setSlot (setSlot s.handles j (HSlot.live none)) i (HSlot.live pj),
                      cnt := maybeRelease pi s.cnt }
    | _, _ => none
  | Op.resetNull i =>
    match getLive s.handles i with
    | some pi =>
      if pi = none then some s
      else
        some { s with handles := setSlot s.handles i (HSlot.live none),
                      cnt := maybeRelease pi s.cnt }
    | none => none
  | Op.resetPtr i p =>
    match getLive s.handles i with
    | some pi =>
      if alivePre s.cnt p then
        if pi = p then some s
        else
          some { s with handles := setSlot s.handles i (HSlot.live p),
                        cnt := maybeRelease pi (maybeAddRef p s.cnt) }
      else none
    | none => none
  | Op.detachOp i =>
    match getLive s.handles i with
    | some pi =>
      some { s with handles := setSlot s.handles i (HSlot.live none),
                    detached := bumpDetached pi s.detached }
    | none => none
  | Op.destruct i =>
    match getLive s.handles i with
    | some pi =>
      some { s with handles := setSlot s.handles i HSlot.dead,
                    cnt := maybeRelease pi s.cnt }
    | none => none

/-- The raw pointer an operation passes to `intrusive_ptr_release`
(`none` when the operation releases nothing). -/
def releasedPtr (op : Op) (s : WState) : Ptr :=
  match op with
  | Op.newRaw _ => none
  | Op.copyCon _ => none
  | Op.moveCon _ => none
  | Op.copyAssign i j =>
    if i = j then none else (getLive s.handles i).join
  | Op.moveAssign i j =>
    if i = j then none else (getLive s.handles i).join
  | Op.resetNull i => (getLive s.handles i).join
  | Op.resetPtr i p =>
    if getLive s.handles i = some p then none else (getLive s.handles i).join
  | Op.detachOp _ => none
  | Op.destruct i => (getLive s.handles i).join

/-- Run a finite sequence of handle operations. -/
def runOps : List Op → WState → Option WState
  | [], s => some s
  | op :: ops, s => (applyOp op s).bind (runOps ops)

/-- Initial state: every object freshly allocated with counter `0`
(`ref_counter(0)`), no handles, no detached references. -/
def initState : WState :=
  { cnt := fun _ => some ref_counter_default,
    handles := [],
    detached := fun _ => 0 }

/-- The reference-count invariant: a live object's counter equals its net
outstanding references, and a destroyed object has none. -/
def Inv (s : WState) : Prop :=
  ∀ o : ObjId,
    (∀ c, s.cnt o = some c → c = refs s o) ∧
    (s.cnt o = none → refs s o = 0)

/-- Headroom of every live counter: `n` further increments cannot wrap. -/
def Small (s : WState) (n : Nat) : Prop :=
  ∀ o c, s.cnt o = some c → c + n < WORD

lemma WORD_pos : 0 < WORD := by decide

lemma addref_eval (c : Nat) (h : c + 1 < WORD) : intrusive_ptr_add_ref c = c + 1 := by
  simp [intrusive_ptr_add_ref, Nat.mod_eq_of_lt h]

lemma release_one : intrusive_ptr_release 1 = none := by
  simp [intrusive_ptr_release]

lemma release_dec (c : Nat) (h1 : 1 ≤ c) (h2 : c < WORD) (h3 : c ≠ 1) :
    intrusive_ptr_release c = some (c - 1) := by
  have hw : 0 < WORD := WORD_pos
  have he : c + (WORD - 1) = (c - 1) + WORD := by omega
  unfold intrusive_ptr_release
  rw [if_neg h3, he, Nat.add_mod_right, Nat.mod_eq_of_lt (by omega)]

lemma maybeAddRef_at (p : Ptr) (h : Heap) (x : ObjId) :
    maybeAddRef p h x = if p = some x then (h x).map intrusive_ptr_add_ref else h x := by
  cases p with
  | none => simp [maybeAddRef]
  | some o =>
    by_cases hx : x = o
    · subst hx; simp [maybeAddRef, addRefAt]
    · simp [maybeAddRef, addRefAt, hx, Ne.symm hx]

lemma maybeRelease_at (p : Ptr) (h : Heap) (x : ObjId) :
    maybeRelease p h x = if p = some x then (h x).bind intrusive_ptr_release else h x := by
  cases p with
  | none => simp [maybeRelease]
  | some o =>
    by_cases hx : x = o
    · subst hx; simp [maybeRelease, releaseAt]
    · simp [maybeRelease, releaseAt, hx, Ne.symm hx]

lemma alivePre_some (h : Heap) (o : ObjId) (ha : alivePre h (some o) = true) :
    ∃ c, h o = some c := by
  simpa [alivePre, Option.isSome_iff_exists] using ha

lemma slotWeight_live (p : Ptr) (o : ObjId) :
    slotWeight (HSlot.live p) o = ptrWeight p o := by
  simp [slotWeight, ptrWeight]

lemma holding_append (hs : List HSlot) (v : HSlot) (o : ObjId) :
    holdingCount (hs ++ [v]) o = holdingCount hs o + slotWeight v o := by
  induction hs with
  | nil => simp only [List.nil_append, holdingCount]; omega
  | cons u t ih =>
    show slotWeight u o + holdingCount (t ++ [v]) o
        = slotWeight u o + holdingCount t o + slotWeight v o
    rw [ih]
    omega

lemma holding_set (hs : List HSlot) (i : Nat) (p : Ptr) (v : HSlot) (o : ObjId)
    (h : getLive hs i = some p) :
    holdingCount (setSlot hs i v) o + slotWeight (HSlot.live p) o
      = holdingCount hs o + slotWeight v o := by
  induction hs generalizing i with
  | nil => simp [getLive] at h
  | cons u t ih =>
    cases i with
    | zero =>
      cases u with
      | live q =>
        simp only [getLive, Option.some.injEq] at h
        subst h
        simp only [setSlot, holdingCount]
        omega
      | dead => simp [getLive] at h
    | succ n =>
      simp only [getLive] at h
      have := ih n h
      simp only [setSlot, holdingCount]
      omega

lemma holding_pos (hs : List HSlot) (i : Nat) (o : ObjId)
    (h : getLive hs i = some (some o)) : 1 ≤ holdingCount hs o := by
  induction hs generalizing i with
  | nil => simp [getLive] at h
  | cons u t ih =>
    cases i with
    | zero =>
      cases u with
      | live q =>
        simp only [getLive, Option.some.injEq] at h
        subst h
        have hw : slotWeight (HSlot.live (some o)) o = 1 := by simp [slotWeight]
        simp only [holdingCount]
        omega
      | dead => simp [getLive] at h
    | succ n =>
      simp only [getLive] at h
      have := ih n h
      simp only [holdingCount]
      omega

lemma holding_pos2 (hs : List HSlot) (i j : Nat) (o : ObjId)
    (hij : i ≠ j)
    (hi : getLive hs i = some (some o)) (hj : getLive hs j = some (some o)) :
    2 ≤ holdingCount hs o := by
  induction hs generalizing i j with
  | nil => simp [getLive] at hi
  | cons u t ih =>
    cases i with
    | zero =>
      cases j with
      | zero => exact absurd rfl hij
      | succ m =>
        cases u with
        | live q =>
          simp only [getLive, Option.some.injEq] at hi
          subst hi
          simp only [getLive] at hj
          have h1 := holding_pos t m o hj
          have hw : slotWeight (HSlot.live (some o)) o = 1 := by simp [slotWeight]
          simp only [holdingCount]
          omega
        | dead => simp [getLive] at hi
    | succ n =>
      cases j with
      | zero =>
        cases u with
        | live q =>
          simp only [getLive, Option.some.injEq] at hj
          subst hj
          simp only [getLive] at hi
          have h1 := holding_pos t n o hi
          have hw : slotWeight (HSlot.live (some o)) o = 1 := by simp [slotWeight]
          simp only [holdingCount]
          omega
        | dead => simp [getLive] at hj
      | succ m =>
        simp only [getLive] at hi hj
        have := ih n m (fun hc => hij (by rw [hc])) hi hj
        simp only [holdingCount]
        omega

lemma getLive_set_ne (hs : List HSlot) (i j : Nat) (v : HSlot) (h : i ≠ j) :
    getLive (setSlot hs j v) i = getLive hs i := by
  induction hs generalizing i j with
  | nil => simp [setSlot]
  | cons u t ih =>
    cases j with
    | zero =>
      cases i with
      | zero => exact absurd rfl h
      | succ n => simp [setSlot, getLive]
    | succ m =>
      cases i with
      | zero => simp [setSlot, getLive]
      | succ n =>
        simp only [setSlot, getLive]
        exact ih n m (fun hc => h (by rw [hc]))

lemma kernel (s : WState) (pA pR : Ptr) (hs2 : List HSlot) (d2 : ObjId → Nat)
    (hInv : Inv s) (hSm : Small s 1)
    (hAlive : ∀ o, pA = some o → ∃ c, s.cnt o = some c)
    (hHeld : ∀ o, pR = some o → 1 ≤ refs s o)
    (hBoth : ∀ o, pA = some o → pR = some o → 2 ≤ refs s o)
    (hRefs : ∀ o, holdingCount hs2 o + d2 o + ptrWeight pR o
        = refs s o + ptrWeight pA o) :
    Inv ⟨maybeRelease pR (maybeAddRef pA s.cnt), hs2, d2⟩ ∧
    (∀ o c2, maybeRelease pR (maybeAddRef pA s.cnt) o = some c2 →
        ∃ c, s.cnt o = some c ∧ c2 ≤ c + 1) ∧
    (∀ o c, s.cnt o = some c →
        (maybeRelease pR (maybeAddRef pA s.cnt) o = none ↔ pR = some o ∧ c = 1)) := by
  have main : ∀ o : ObjId,
      (∀ c2, maybeRelease pR (maybeAddRef pA s.cnt) o = some c2 →
          c2 = holdingCount hs2 o + d2 o) ∧
      (maybeRelease pR (maybeAddRef pA s.cnt) o = none →
          holdingCount hs2 o + d2 o = 0) ∧
      (∀ c2, maybeRelease pR (maybeAddRef pA s.cnt) o = some c2 →
          ∃ c, s.cnt o = some c ∧ c2 ≤ c + 1) ∧
      (∀ c, s.cnt o = some c →
          (maybeRelease pR (maybeAddRef pA s.cnt) o = none ↔ pR = some o ∧ c = 1)) := by
    intro o
    have hm := maybeAddRef_at pA s.cnt o
    have hf := maybeRelease_at pR (maybeAddRef pA s.cnt) o
    cases hco : s.cnt o with
    | none =>
      have hpA : pA ≠ some o := by
        intro he
        obtain ⟨c, hc⟩ := hAlive o he
        rw [hco] at hc
        exact Option.noConfusion hc
      have hmo : maybeAddRef pA s.cnt o = none := by
        rw [hm, if_neg hpA]
        exact hco
      have hfo : maybeRelease pR (maybeAddRef pA s.cnt) o = none := by
        rw [hf, hmo]
        split <;> simp
      have h0 : refs s o = 0 := (hInv o).2 hco
      have hwA : ptrWeight pA o = 0 := by simp [ptrWeight, hpA]
      have hRo := hRefs o
      refine ⟨?_, ?_, ?_, ?_⟩
      · intro c2 h2
        rw [hfo] at h2
        exact Option.noConfusion h2
      · intro _
        omega
      · intro c2 h2
        rw [hfo] at h2
        exact Option.noConfusion h2
      · intro c hc
        exact Option.noConfusion hc
    | some c =>
      have hcR : c = refs s o := (hInv o).1 c hco
      have hcW : c + 1 < WORD := hSm o c hco
      by_cases hA : pA = some o
      · have hmo : maybeAddRef pA s.cnt o = some (c + 1) := by
          rw [hm, if_pos hA, hco]
          simp [addref_eval c hcW]
        have hwA : ptrWeight pA o = 1 := by simp [ptrWeight, hA]
        by_cases hR : pR = some o
        · have h2le : 2 ≤ refs s o := hBoth o hA hR
          have hwR : ptrWeight pR o = 1 := by simp [ptrWeight, hR]
          have hfo : maybeRelease pR (maybeAddRef pA s.cnt) o = some c := by
            rw [hf, if_pos hR, hmo]
            show intrusive_ptr_release (c + 1) = some c
            rw [release_dec (c + 1) (by omega) hcW (by omega)]
            simp only [Option.some.injEq]
            omega
          have hrefs2 : holdingCount hs2 o + d2 o = c := by
            have := hRefs o
            omega
          refine ⟨?_, ?_, ?_, ?_⟩
          · intro c2 h2
            rw [hfo] at h2
            injection h2 with h2
            omega
          · intro h2
            rw [hfo] at h2
            exact Option.noConfusion h2
          · intro c2 h2
            rw [hfo] at h2
            injection h2 with h2
            exact ⟨c, rfl, by omega⟩
          · intro c' hc'
            injection hc' with hc'
            constructor
            · intro hnone
              rw [hfo] at hnone
              exact Option.noConfusion hnone
            · rintro ⟨_, h1⟩
              exfalso
              omega
        · have hwR : ptrWeight pR o = 0 := by simp [ptrWeight, hR]
          have hfo : maybeRelease pR (maybeAddRef pA s.cnt) o = some (c + 1) := by
            rw [hf, if_neg hR]
            exact hmo
          have hrefs2 : holdingCount hs2 o + d2 o = c + 1 := by
            have := hRefs o
            omega
          refine ⟨?_, ?_, ?_, ?_⟩
          · intro c2 h2
            rw [hfo] at h2
            injection h2 with h2
            omega
          · intro h2
            rw [hfo] at h2
            exact Option.noConfusion h2
          · intro c2 h2
            rw [hfo] at h2
            injection h2 with h2
            exact ⟨c, rfl, by omega⟩
          · intro c' hc'
            injection hc' with hc'
            constructor
            · intro hnone
              rw [hfo] at hnone
              exact Option.noConfusion hnone
            · rintro ⟨hRo, _⟩
              exact absurd hRo hR
      · have hmo : maybeAddRef pA s.cnt o = some c := by
          rw [hm, if_neg hA]
          exact hco
        have hwA : ptrWeight pA o = 0 := by simp [ptrWeight, hA]
        by_cases hR : pR = some o
        · have h1le : 1 ≤ refs s o := hHeld o hR
          have hwR : ptrWeight pR o = 1 := by simp [ptrWeight, hR]
          by_cases hc1 : c = 1
          · subst hc1
            have hfo : maybeRelease pR (maybeAddRef pA s.cnt) o = none := by
              rw [hf, if_pos hR, hmo]
              show intrusive_ptr_release 1 = none
              exact release_one
            have hrefs2 : holdingCount hs2 o + d2 o = 0 := by
              have := hRefs o
              omega
            refine ⟨?_, ?_, ?_, ?_⟩
            · intro c2 h2
              rw [hfo] at h2
              exact Option.noConfusion h2
            · intro _
              exact hrefs2
            · intro c2 h2
              rw [hfo] at h2
              exact Option.noConfusion h2
            · intro c' hc'
              injection hc' with hc'
              constructor
              · intro _
                exact ⟨hR, by omega⟩
              · intro _
                exact hfo
          · have hfo : maybeRelease pR (maybeAddRef pA s.cnt) o = some (c - 1) := by
              rw [hf, if_pos hR, hmo]
              show intrusive_ptr_release c = some (c - 1)
              exact release_dec c (by omega) (by omega) hc1
            have hrefs2 : holdingCount hs2 o + d2 o = c - 1 := by
              have := hRefs o
              omega
            refine ⟨?_, ?_, ?_, ?_⟩
            · intro c2 h2
              rw [hfo] at h2
              injection h2 with h2
              omega
            · intro h2
              rw [hfo] at h2
              exact Option.noConfusion h2
            · intro c2 h2
              rw [hfo] at h2
              injection h2 with h2
              exact ⟨c, rfl, by omega⟩
            · intro c' hc'
              injection hc' with hc'
              constructor
              · intro hnone
                rw [hfo] at hnone
                exact Option.noConfusion hnone
              · rintro ⟨_, h1⟩
                exfalso
                omega
        · have hwR : ptrWeight pR o = 0 := by simp [ptrWeight, hR]
          have hfo : maybeRelease pR (maybeAddRef pA s.cnt) o = some c := by
            rw [hf, if_neg hR]
            exact hmo
          have hrefs2 : holdingCount hs2 o + d2 o = c := by
            have := hRefs o
            omega
          refine ⟨?_, ?_, ?_, ?_⟩
          · intro c2 h2
            rw [hfo] at h2
            injection h2 with h2
            omega
          · intro h2
            rw [hfo] at h2
            exact Option.noConfusion h2
          · intro c2 h2
            rw [hfo] at h2
            injection h2 with h2
            exact ⟨c, rfl, by omega⟩
          · intro c' hc'
            injection hc' with hc'
            constructor
            · intro hnone
              rw [hfo] at hnone
              exact Option.noConfusion hnone
            · rintro ⟨hRo, _⟩
              exact absurd hRo hR
  refine ⟨?_, ?_, ?_⟩
  · intro o
    exact ⟨fun c hc => (main o).1 c hc, (main o).2.1⟩
  · intro o c2 h2
    exact (main o).2.2.1 c2 h2
  · intro o c hc
    exact (main o).2.2.2 c hc

lemma bumpDetached_at (p : Ptr) (d : ObjId → Nat) (o : ObjId) :
    bumpDetached p d o = d o + ptrWeight p o := by
  cases p with
  | none => simp [bumpDetached, ptrWeight]
  | some q =>
    by_cases ho : o = q
    · subst ho; simp [bumpDetached, ptrWeight]
    · have hqo : ¬q = o := fun h => ho h.symm
      simp [bumpDetached, ptrWeight, ho, hqo]

lemma inv_holding_alive (s : WState) (hInv : Inv s) (i : Nat) (o : ObjId)
    (h : getLive s.handles i = some (some o)) :
    ∃ c, s.cnt o = some c ∧ 1 ≤ c := by
  have h1 : 1 ≤ holdingCount s.handles o := holding_pos s.handles i o h
  have hr : 1 ≤ refs s o := by unfold refs; omega
  cases hc : s.cnt o with
  | none =>
    have := (hInv o).2 hc
    exfalso
    omega
  | some c =>
    have := (hInv o).1 c hc
    exact ⟨c, rfl, by omega⟩

lemma step_main (s : WState) (op : Op) (s2 : WState)
    (hInv : Inv s) (hSm : Small s 1) (hap : applyOp op s = some s2) :
    Inv s2 ∧
    (∀ o c2, s2.cnt o = some c2 → ∃ c, s.cnt o = some c ∧ c2 ≤ c + 1) ∧
    (∀ o c, s.cnt o = some c →
        (s2.cnt o = none ↔ (releasedPtr op s = some o ∧ c = 1))) := by
  cases op with
  | newRaw p =>
    simp only [applyOp] at hap
    split at hap
    case isTrue hal =>
      injection hap with hap
      subst hap
      have K := kernel s p none (s.handles ++ [HSlot.live p]) s.detached hInv hSm
        (fun o ho => by subst ho; exact alivePre_some s.cnt o hal)
        (fun o ho => Option.noConfusion ho)
        (fun o _ ho => Option.noConfusion ho)
        (fun o => by
          have h1 := holding_append s.handles (HSlot.live p) o
          have h2 := slotWeight_live p o
          have h3 : ptrWeight (none : Ptr) o = 0 := by simp [ptrWeight]
          unfold refs
          omega)
      exact K
    case isFalse => exact Option.noConfusion hap
  | copyCon i =>
    simp only [applyOp] at hap
    cases hgi : getLive s.handles i with
    | none => rw [hgi] at hap; exact Option.noConfusion hap
    | some p =>
      rw [hgi] at hap
      injection hap with hap
      subst hap
      have K := kernel s p none (s.handles ++ [HSlot.live p]) s.detached hInv hSm
        (fun o ho => by
          subst ho
          obtain ⟨c, hc, _⟩ := inv_holding_alive s hInv i o hgi
          exact ⟨c, hc⟩)
        (fun o ho => Option.noConfusion ho)
        (fun o _ ho => Option.noConfusion ho)
        (fun o => by
          have h1 := holding_append s.handles (HSlot.live p) o
          have h2 := slotWeight_live p o
          have h3 : ptrWeight (none : Ptr) o = 0 := by simp [ptrWeight]
          unfold refs
          omega)
      exact K
  | copyAssign i j =>
    simp only [applyOp] at hap
    cases hgi : getLive s.handles i with
    | none => rw [hgi] at hap; exact Option.noConfusion hap
    | some pi =>
      cases hgj : getLive s.handles j with
      | none => simp only [hgi, hgj] at hap; exact Option.noConfusion hap
      | some pj =>
        simp only [hgi, hgj] at hap
        by_cases hij : i = j
        · rw [if_pos hij] at hap
          injection hap with hap
          subst hap
          refine ⟨hInv, ?_, ?_⟩
          · intro o c2 h2
            exact ⟨c2, h2, by omega⟩
          · intro o c hc
            have hrel : releasedPtr (Op.copyAssign i j) s = none := by
              show (if i = j then none else Option.join (getLive s.handles i)) = none
              rw [if_pos hij]
            rw [hrel]
            constructor
            · intro hn
              rw [hc] at hn
              exact Option.noConfusion hn
            · rintro ⟨ho, _⟩
              exact Option.noConfusion ho
        · rw [if_neg hij] at hap
          injection hap with hap
          subst hap
          have K := kernel s pj pi (setSlot s.handles i (HSlot.live pj)) s.detached hInv hSm
            (fun o ho => by
              subst ho
              obtain ⟨c, hc, _⟩ := inv_holding_alive s hInv j o hgj
              exact ⟨c, hc⟩)
            (fun o ho => by
              subst ho
              have := holding_pos s.handles i o hgi
              unfold refs
              omega)
            (fun o hoj hoi => by
              subst hoj
              subst hoi
              have := holding_pos2 s.handles i j o hij hgi hgj
              unfold refs
              omega)
            (fun o => by
              have h1 := holding_set s.handles i pi (HSlot.live pj) o hgi
              have h2 := slotWeight_live pi o
              have h3 := slotWeight_live pj o
              unfold refs
              omega)
          have hrel : releasedPtr (Op.copyAssign i j) s = pi := by
            show (if i = j then none else Option.join (getLive s.handles i)) = pi
            rw [if_neg hij, hgi]
            rfl
          refine ⟨K.1, K.2.1, ?_⟩
          intro o c hc
          rw [hrel]
          exact K.2.2 o c hc
  | moveCon i =>
    simp only [applyOp] at hap
    cases hgi : getLive s.handles i with
    | none => rw [hgi] at hap; exact Option.noConfusion hap
    | some p =>
      rw [hgi] at hap
      injection hap with hap
      subst hap
      have K := kernel s none none
          (setSlot s.handles i (HSlot.live none) ++ [HSlot.live p]) s.detached hInv hSm
        (fun o ho => Option.noConfusion ho)
        (fun o ho => Option.noConfusion ho)
        (fun o _ ho => Option.noConfusion ho)
        (fun o => by
          have h1 := holding_set s.handles i p (HSlot.live none) o hgi
          have h2 := holding_append (setSlot s.handles i (HSlot.live none)) (HSlot.live p) o
          have h3 : slotWeight (HSlot.live none) o = 0 := by simp [slotWeight]
          have h4 : ptrWeight (none : Ptr) o = 0 := by simp [ptrWeight]
          unfold refs
          omega)
      exact K
  | moveAssign i j =>
    simp only [applyOp] at hap
    cases hgi : getLive s.handles i with
    | none => rw [hgi] at hap; exact Option.noConfusion hap
    | some pi =>
      cases hgj : getLive s.handles j with
      | none => simp only [hgi, hgj] at hap; exact Option.noConfusion hap
      | some pj =>
        simp only [hgi, hgj] at hap
        by_cases hij : i = j
        · rw [if_pos hij] at hap
          injection hap with hap
          subst hap
          refine ⟨hInv, ?_, ?_⟩
          · intro o c2 h2
            exact ⟨c2, h2, by omega⟩
          · intro o c hc
            have hrel : releasedPtr (Op.moveAssign i j) s = none := by
              show (if i = j then none else Option.join (getLive s.handles i)) = none
              rw [if_pos hij]
            rw [hrel]
            constructor
            · intro hn
              rw [hc] at hn
              exact Option.noConfusion hn
            · rintro ⟨ho, _⟩
              exact Option.noConfusion ho
        · rw [if_neg hij] at hap
          injection hap with hap
          subst hap
          have hgi2 : getLive (setSlot s.handles j (HSlot.live none)) i = some pi := by
            rw [getLive_set_ne s.handles i j (HSlot.live none) hij]
            exact hgi
          have K := kernel s none pi
              (setSlot (setSlot s.handles j (HSlot.live none)) i (HSlot.live pj)) s.detached hInv hSm
            (fun o ho => Option.noConfusion ho)
            (fun o ho => by
              subst ho
              have := holding_pos s.handles i o hgi
              unfold refs
              omega)
            (fun o ho => Option.noConfusion ho)
            (fun o => by
              have h1 := holding_set s.handles j pj (HSlot.live none) o hgj
              have h2 := holding_set (setSlot s.handles j (HSlot.live none)) i pi
                (HSlot.live pj) o hgi2
              have h3 := slotWeight_live pi o
              have h4 := slotWeight_live pj o
              have h5 : slotWeight (HSlot.live none) o = 0 := by simp [slotWeight]
              have h6 : ptrWeight (none : Ptr) o = 0 := by simp [ptrWeight]
              unfold refs
              omega)
          have hrel : releasedPtr (Op.moveAssign i j) s = pi := by
            show (if i = j then none else Option.join (getLive s.handles i)) = pi
            rw [if_neg hij, hgi]
            rfl
          refine ⟨K.1, K.2.1, ?_⟩
          intro o c hc
          rw [hrel]
          exact K.2.2 o c hc
  | resetNull i =>
    simp only [applyOp] at hap
    cases hgi : getLive s.handles i with
    | none => rw [hgi] at hap; exact Option.noConfusion hap
    | some pi =>
      simp only [hgi] at hap
      by_cases hpn : pi = none
      · rw [if_pos hpn] at hap
        injection hap with hap
        subst hap
        refine ⟨hInv, ?_, ?_⟩
        · intro o c2 h2
          exact ⟨c2, h2, by omega⟩
        · intro o c hc
          have hrel : releasedPtr (Op.resetNull i) s = none := by
            show Option.join (getLive s.handles i) = none
            rw [hgi, hpn]
            rfl
          rw [hrel]
          constructor
          · intro hn
            rw [hc] at hn
            exact Option.noConfusion hn
          · rintro ⟨ho, _⟩
            exact Option.noConfusion ho
      · rw [if_neg hpn] at hap
        injection hap with hap
        subst hap
        have K := kernel s none pi (setSlot s.handles i (HSlot.live none)) s.detached hInv hSm
          (fun o ho => Option.noConfusion ho)
          (fun o ho => by
            subst ho
            have := holding_pos s.handles i o hgi
            unfold refs
            omega)
          (fun o ho => Option.noConfusion ho)
          (fun o => by
            have h1 := holding_set s.handles i pi (HSlot.live none) o hgi
            have h2 := slotWeight_live pi o
            have h3 : slotWeight (HSlot.live none) o = 0 := by simp [slotWeight]
            have h4 : ptrWeight (none : Ptr) o = 0 := by simp [ptrWeight]
            unfold refs
            omega)
        have hrel : releasedPtr (Op.resetNull i) s = pi := by
          show Option.join (getLive s.handles i) = pi
          rw [hgi]
          rfl
        refine ⟨K.1, K.2.1, ?_⟩
        intro o c hc
        rw [hrel]
        exact K.2.2 o c hc
  | resetPtr i p =>
    simp only [applyOp] at hap
    cases hgi : getLive s.handles i with
    | none => rw [hgi] at hap; exact Option.noConfusion hap
    | some pi =>
      simp only [hgi] at hap
      split at hap
      case isFalse => exact Option.noConfusion hap
      case isTrue hal =>
        by_cases hpi : pi = p
        · rw [if_pos hpi] at hap
          injection hap with hap
          subst hap
          refine ⟨hInv, ?_, ?_⟩
          · intro o c2 h2
            exact ⟨c2, h2, by omega⟩
          · intro o c hc
            have hrel : releasedPtr (Op.resetPtr i p) s = none := by
              show (if getLive s.handles i = some p then none
                  else Option.join (getLive s.handles i)) = none
              rw [hgi, hpi, if_pos rfl]
            rw [hrel]
            constructor
            · intro hn
              rw [hc] at hn
              exact Option.noConfusion hn
            · rintro ⟨ho, _⟩
              exact Option.noConfusion ho
        · rw [if_neg hpi] at hap
          injection hap with hap
          subst hap
          have K := kernel s p pi (setSlot s.handles i (HSlot.live p)) s.detached hInv hSm
            (fun o ho => by subst ho; exact alivePre_some s.cnt o hal)
            (fun o ho => by
              subst ho
              have := holding_pos s.handles i o hgi
              unfold refs
              omega)
            (fun o ha hr => absurd (hr.trans ha.symm) hpi)
            (fun o => by
              have h1 := holding_set s.handles i pi (HSlot.live p) o hgi
              have h2 := slotWeight_live pi o
              have h3 := slotWeight_live p o
              unfold refs
              omega)
          have hrel : releasedPtr (Op.resetPtr i p) s = pi := by
            show (if getLive s.handles i = some p then none
                else Option.join (getLive s.handles i)) = pi
            rw [hgi, if_neg (fun he => hpi (Option.some.inj he))]
            rfl
          refine ⟨K.1, K.2.1, ?_⟩
          intro o c hc
          rw [hrel]
          exact K.2.2 o c hc
  | detachOp i =>
    simp only [applyOp] at hap
    cases hgi : getLive s.handles i with
    | none => rw [hgi] at hap; exact Option.noConfusion hap
    | some pi =>
      rw [hgi] at hap
      injection hap with hap
      subst hap
      have K := kernel s none none (setSlot s.handles i (HSlot.live none))
          (bumpDetached pi s.detached) hInv hSm
        (fun o ho => Option.noConfusion ho)
        (fun o ho => Option.noConfusion ho)
        (fun o _ ho => Option.noConfusion ho)
        (fun o => by
          have h1 := holding_set s.handles i pi (HSlot.live none) o hgi
          have h2 := slotWeight_live pi o
          have h3 : slotWeight (HSlot.live none) o = 0 := by simp [slotWeight]
          have h4 : ptrWeight (none : Ptr) o = 0 := by simp [ptrWeight]
          have h5 := bumpDetached_at pi s.detached o
          unfold refs
          omega)
      exact K
  | destruct i =>
    simp only [applyOp] at hap
    cases hgi : getLive s.handles i with
    | none => rw [hgi] at hap; exact Option.noConfusion hap
    | some pi =>
      rw [hgi] at hap
      injection hap with hap
      subst hap
      have K := kernel s none pi (setSlot s.handles i HSlot.dead) s.detached hInv hSm
        (fun o ho => Option.noConfusion ho)
        (fun o ho => by
          subst ho
          have := holding_pos s.handles i o hgi
          unfold refs
          omega)
        (fun o ho => Option.noConfusion ho)
        (fun o => by
          have h1 := holding_set s.handles i pi HSlot.dead o hgi
          have h2 := slotWeight_live pi o
          have h3 : slotWeight HSlot.dead o = 0 := by simp [slotWeight]
          have h4 : ptrWeight (none : Ptr) o = 0 := by simp [ptrWeight]
          unfold refs
          omega)
      have hrel : releasedPtr (Op.destruct i) s = pi := by
        show Option.join (getLive s.handles i) = pi
        rw [hgi]
        rfl
      refine ⟨K.1, K.2.1, ?_⟩
      intro o c hc
      rw [hrel]
      exact K.2.2 o c hc

lemma small_mono (s : WState) (m n : Nat) (h : Small s m) (hmn : n ≤ m) : Small s n :=
  fun o c hc => by
    have := h o c hc
    omega

lemma small_step (s s2 : WState) (op : Op) (n : Nat)
    (hInv : Inv s) (hSm : Small s (n + 1)) (hap : applyOp op s = some s2) :
    Small s2 n := by
  intro o c2 hc2
  obtain ⟨c, hc, hle⟩ :=
    (step_main s op s2 hInv (small_mono s (n + 1) 1 hSm (by omega)) hap).2.1 o c2 hc2
  have := hSm o c hc
  omega

lemma run_main (ops : List Op) : ∀ (s s2 : WState), Inv s → Small s ops.length →
    runOps ops s = some s2 → Inv s2 := by
  induction ops with
  | nil =>
    intro s s2 hInv _ hr
    injection hr with hr
    subst hr
    exact hInv
  | cons op ops ih =>
    intro s s2 hInv hSm hr
    simp only [runOps] at hr
    cases hap : applyOp op s with
    | none =>
      rw [hap] at hr
      exact Option.noConfusion hr
    | some s1 =>
      rw [hap] at hr
      have hr2 : runOps ops s1 = some s2 := hr
      have hSm1 : Small s 1 := small_mono s (ops.length + 1) 1 hSm (by omega)
      have hI1 := (step_main s op s1 hInv hSm1 hap).1
      have hS1 : Small s1 ops.length := small_step s s1 op ops.length hInv hSm hap
      exact ih s1 s2 hI1 hS1 hr2

lemma inv_init : Inv initState := by
  intro o
  constructor
  · intro c hc
    have h0 : (some 0 : Option Nat) = some c := hc
    injection h0 with h0
    subst h0
    show 0 = refs initState o
    simp [refs, initState, holdingCount]
  · intro hc
    exact Option.noConfusion hc

lemma run_replicate (n : Nat) : ∀ (s : WState) (c : Nat), s.cnt 0 = some c → c < WORD →
    ∃ s2, runOps (List.replicate n (Op.newRaw (some 0))) s = some s2 ∧
      s2.cnt 0 = some ((c + n) % WORD) ∧
      holdingCount s2.handles 0 = holdingCount s.handles 0 + n ∧
      s2.detached 0 = s.detached 0 := by
  induction n with
  | zero =>
    intro s c hc hcw
    refine ⟨s, rfl, ?_, by omega, rfl⟩
    rw [hc, Nat.add_zero, Nat.mod_eq_of_lt hcw]
  | succ n ih =>
    intro s c hc hcw
    have hal : alivePre s.cnt (some 0) = true := by simp [alivePre, hc]
    have hstep : applyOp (Op.newRaw (some 0)) s
        = some { s with handles := s.handles ++ [HSlot.live (some 0)],
                        cnt := maybeAddRef (some 0) s.cnt } := by
      simp [applyOp, hal]
    have hc1 : (maybeAddRef (some 0) s.cnt) 0 = some ((c + 1) % WORD) := by
      rw [maybeAddRef_at, if_pos rfl, hc]
      rfl
    have hw1 : (c + 1) % WORD < WORD := Nat.mod_lt _ WORD_pos
    obtain ⟨s2, hrun, hcnt, hhold, hdet⟩ :=
      ih { s with handles := s.handles ++ [HSlot.live (some 0)],
                  cnt := maybeAddRef (some 0) s.cnt } ((c + 1) % WORD) hc1 hw1
    refine ⟨s2, ?_, ?_, ?_, ?_⟩
    · rw [List.replicate_succ]
      show (applyOp (Op.newRaw (some 0)) s).bind
          (runOps (List.replicate n (Op.newRaw (some 0)))) = some s2
      rw [hstep]
      exact hrun
    · rw [hcnt, Nat.mod_add_mod]
      have he : c + 1 + n = c + (n + 1) := by omega
      rw [he]
    · have hhold2 : holdingCount s2.handles 0
          = holdingCount (s.handles ++ [HSlot.live (some 0)]) 0 + n := hhold
      have ha := holding_append s.handles (HSlot.live (some 0)) 0
      have hw : slotWeight (HSlot.live (some 0)) 0 = 1 := by simp [slotWeight]
      omega
    · exact hdet

/-- C1 (amended form): after any well-formed finite sequence of fewer
than 2 ^ 64 handle operations starting from freshly allocated objects,
every live object's embedded counter equals exactly its number of net
outstanding references (live handles currently holding a reference plus
detached-but-unreleased references), for every such k, regardless of the
mix of constructions, copies, moves, resets, detaches and destructions
that produced the state; a destroyed object has zero outstanding
references. -/
theorem handle_ops_count_invariant (ops : List Op) (s2 : WState)
    (hlen : ops.length < WORD) (hrun : runOps ops initState = some s2) :
    ∀ o : ObjId, (∀ c, s2.cnt o = some c → c = refs s2 o) ∧
      (s2.cnt o = none → refs s2 o = 0) := by
  have hSm : Small initState ops.length := by
    intro o c hc
    have h0 : (some 0 : Option Nat) = some c := hc
    injection h0 with h0
    omega
  exact run_main ops initState s2 inv_init hSm hrun

def c1ops : List Op := [Op.newRaw (some 0), Op.copyCon 0, Op.destruct 1]

def c1state : WState := (runOps c1ops initState).getD initState

/-- C1 witness: constructing a handle on object 0, copying it, and
destroying the copy leaves the counter at 1 with exactly one net
outstanding reference. -/
theorem handle_ops_count_invariant_witness :
    c1ops.length < WORD ∧ (1 : Nat) = refs c1state 0 := by
  constructor
  · decide
  · exact (handle_ops_count_invariant c1ops c1state (by decide) rfl 0).1 1 rfl

/-- C1 counterexample: with no bound on the number of operations the
claim is false on the code, because the embedded counter is a wrapping
64-bit size_t: 2 ^ 64 acquiring constructions from a raw pointer to
object 0 leave its counter at 0 while 2 ^ 64 net references are
outstanding. -/
theorem handle_ops_count_invariant_cex :
    ¬ (∀ (ops : List Op) (s2 : WState), runOps ops initState = some s2 →
        ∀ o c, s2.cnt o = some c → c = refs s2 o) := by
  intro hclaim
  obtain ⟨s2, hrun, hcnt, hhold, hdet⟩ := run_replicate WORD initState 0 rfl WORD_pos
  have hc0 : s2.cnt 0 = some 0 := by
    rw [hcnt, Nat.zero_add, Nat.mod_self]
  have h0 := hclaim _ _ hrun 0 0 hc0
  have hr : refs s2 0 = WORD := by
    unfold refs
    rw [hhold, hdet]
    simp [initState, holdingCount]
  have hp := WORD_pos
  omega

/-- C2: `intrusive_ptr_release` on a live counter `c` with `1 ≤ c < 2^64`
decrements it by exactly one, destroying the object precisely when the
value observed immediately before the decrement is `1`; and in the
operational model a step destroys an object exactly when that step
passes a pointer to it to `intrusive_ptr_release` while its counter is
`1` — no other operation ever destroys it. -/
theorem release_behavior :
    (∀ c, 1 ≤ c → c < WORD →
      ((c = 1 → intrusive_ptr_release c = none) ∧
       (c ≠ 1 → intrusive_ptr_release c = some (c - 1)))) ∧
    (∀ (s : WState) (op : Op) (s2 : WState) (o : ObjId) (c : Nat),
      Inv s → Small s 1 → applyOp op s = some s2 → s.cnt o = some c →
      (s2.cnt o = none ↔ (releasedPtr op s = some o ∧ c = 1))) := by
  constructor
  · intro c h1 h2
    constructor
    · intro hc1
      subst hc1
      exact release_one
    · intro hc1
      exact release_dec c h1 h2 hc1
  · intro s op s2 o c hInv hSm hap hc
    exact (step_main s op s2 hInv hSm hap).2.2 o c hc

/-- State with one handle holding the only reference to object 0. -/
def sOne : WState :=
  { cnt := fun o => if o = 0 then some 1 else none,
    handles := [HSlot.live (some 0)],
    detached := fun _ => 0 }

lemma inv_sOne : Inv sOne := by
  intro o
  by_cases ho : o = 0
  · subst ho
    constructor
    · intro c hc
      have h1 : (some 1 : Option Nat) = some c := hc
      injection h1 with h1
      subst h1
      show (1 : Nat) = refs sOne 0
      simp [refs, sOne, holdingCount, slotWeight]
    · intro hc
      exact Option.noConfusion hc
  · constructor
    · intro c hc
      exfalso
      simp [sOne, ho] at hc
    · intro _
      show refs sOne o = 0
      have ho2 : ¬(0 : ObjId) = o := fun h => ho h.symm
      simp [refs, sOne, holdingCount, slotWeight, ho2]

lemma small_sOne : Small sOne 1 := by
  intro o c hc
  by_cases ho : o = 0
  · subst ho
    have h1 : (some 1 : Option Nat) = some c := hc
    injection h1 with h1
    have h2 : 2 < WORD := by decide
    omega
  · simp [sOne, ho] at hc

def sOneAfter : WState := (applyOp (Op.destruct 0) sOne).getD sOne

/-- C2 witness: release at counter 1 destroys, at counter 2 decrements to
1; destroying the only handle of `sOne` destroys object 0. -/
theorem release_behavior_witness :
    intrusive_ptr_release 1 = none ∧ intrusive_ptr_release 2 = some 1 ∧
    sOneAfter.cnt 0 = none := by
  refine ⟨?_, ?_, ?_⟩
  · exact (release_behavior.1 1 (by decide) (by decide)).1 rfl
  · exact (release_behavior.1 2 (by decide) (by decide)).2 (by decide)
  · exact (release_behavior.2 sOne (Op.destruct 0) sOneAfter 0 1
      inv_sOne small_sOne rfl rfl).mpr ⟨rfl, rfl⟩

/-- C5: self-copy-assignment and self-move-assignment on an in-scope
handle are complete no-ops: the whole state — every object's counter
included — is unchanged and the handle still holds the same pointer. -/
theorem self_assignment_noop (s : WState) (i : Nat) (p : Ptr)
    (h : getLive s.handles i = some p) :
    applyOp (Op.copyAssign i i) s = some s ∧
    applyOp (Op.moveAssign i i) s = some s := by
  constructor
  · simp [applyOp, h]
  · simp [applyOp, h]

/-- C5 witness: self-assignments of the only handle of `sOne` leave the
state untouched. -/
theorem self_assignment_noop_witness :
    applyOp (Op.copyAssign 0 0) sOne = some sOne ∧
    applyOp (Op.moveAssign 0 0) sOne = some sOne :=
  self_assignment_noop sOne 0 (some 0) rfl

/-- Heap with object 0 alive at counter 1 (a single outstanding
reference) and no other object. -/
def hOne : Heap := fun x => if x = 0 then some 1 else none

lemma addRef_release_comm (h : Heap) (o q : ObjId) (hne : o ≠ q) :
    releaseAt (addRefAt h o) q = addRefAt (releaseAt h q) o := by
  funext x
  simp only [addRefAt, releaseAt]
  by_cases hxo : x = o
  · subst hxo
    simp [hne]
  · by_cases hxq : x = q
    · subst hxq
      simp [hxo]
    · simp [hxo, hxq]

lemma ctorSwapDtor_eq_claimed (a : iptr) (r : Ptr) (h : Heap) (hne : a.ptr ≠ r) :
    ctorSwapDtor a r true h = iptrCtor r true (maybeRelease a.ptr h) := by
  obtain ⟨ap⟩ := a
  cases ap with
  | none =>
    cases r with
    | none => exact absurd rfl hne
    | some q => rfl
  | some o =>
    cases r with
    | none => rfl
    | some q =>
      have hoq : q ≠ o := fun he => hne (congrArg some he.symm)
      show (⟨some q⟩, releaseAt (addRefAt h q) o)
          = ((⟨some q⟩ : iptr), addRefAt (releaseAt h o) q)
      rw [addRef_release_comm h q o hoq]

/-- C3: constructing a handle from a raw pointer stores that pointer in
the handle, bumps the pointee's counter by exactly one iff the pointer
is non-null and acquire is true, leaves every other object untouched,
and changes nothing at all when acquire is false or the pointer null. -/
theorem ctor_acquire_spec (p : Ptr) (b : Bool) (h : Heap) :
    (iptrCtor p b h).1.ptr = p ∧
    (∀ o c, p = some o → b = true → h o = some c →
        (iptrCtor p b h).2 o = some ((c + 1) % WORD) ∧
        (∀ x, x ≠ o → (iptrCtor p b h).2 x = h x)) ∧
    (b = false → (iptrCtor p b h).2 = h) ∧
    (p = none → (iptrCtor p b h).2 = h) := by
  refine ⟨?_, ?_, ?_, ?_⟩
  · cases p <;> cases b <;> rfl
  · intro o c hp hb hc
    subst hp
    subst hb
    constructor
    · show addRefAt h o o = some ((c + 1) % WORD)
      simp [addRefAt, hc, intrusive_ptr_add_ref]
    · intro x hx
      show addRefAt h o x = h x
      simp [addRefAt, hx]
  · intro hb
    subst hb
    cases p <;> rfl
  · intro hp
    subst hp
    cases b <;> rfl

/-- C3 witness: acquiring construction on `hOne` stores the pointer and
bumps the counter 1 to 2; non-acquiring construction leaves the heap. -/
theorem ctor_acquire_spec_witness :
    (iptrCtor (some 0) true hOne).1.ptr = some 0 ∧
    (iptrCtor (some 0) true hOne).2 0 = some 2 ∧
    (iptrCtor (some 0) false hOne).2 = hOne := by
  refine ⟨(ctor_acquire_spec (some 0) true hOne).1, ?_,
    (ctor_acquire_spec (some 0) false hOne).2.2.1 rfl⟩
  have h := ((ctor_acquire_spec (some 0) true hOne).2.1 0 1 rfl rfl rfl).1
  rw [h]
  decide

/-- C4 counterexample: with a handle holding the only reference to
object 0 (counter 1), reset to the very pointer already held is a no-op
in the source (the object survives at counter 1), while the claim's
release-then-acquire semantics destroys the object — so reset(rawPtr)
does not always release the old reference and AddRef the new one. -/
theorem reset_release_acquire_cex :
    (resetP ⟨some 0⟩ (some 0) hOne).2 0 = some 1 ∧
    (resetPClaimed ⟨some 0⟩ (some 0) hOne).2 0 = none ∧
    resetP ⟨some 0⟩ (some 0) hOne ≠ resetPClaimed ⟨some 0⟩ (some 0) hOne := by
  refine ⟨rfl, rfl, ?_⟩
  intro he
  have h2 := congrArg (fun z : iptr × Heap => z.2 0) he
  have h3 : (some 1 : Option Nat) = none := h2
  exact Option.noConfusion h3

/-- C4 (amended): reset() releases any held reference and nulls the
handle; reset(rawPtr) equals release-old-then-acquire-new exactly when
rawPtr differs from the held pointer, and is a complete no-op (no
Release, no AddRef) when rawPtr equals the held pointer;
reset(rawPtr, acquire) always releases the old reference after building
the temporary (which AddRefs iff acquire is true), with no equality
guard. -/
theorem reset_spec_amended (a : iptr) (r : Ptr) (b : Bool) (h : Heap) :
    ((resetV a h).1.ptr = none ∧ (resetV a h).2 = maybeRelease a.ptr h) ∧
    (a.ptr ≠ r → resetP a r h = resetPClaimed a r h) ∧
    (a.ptr = r → resetP a r h = (a, h)) ∧
    ((resetPB a r b h).1.ptr = r ∧
      (resetPB a r b h).2 = maybeRelease a.ptr (iptrCtor r b h).2) := by
  refine ⟨⟨?_, ?_⟩, ?_, ?_, ?_, ?_⟩
  · by_cases hp : a.ptr = none
    · simp [resetV, hp]
    · simp [resetV, hp, iptrSwap, iptrDefault]
  · by_cases hp : a.ptr = none
    · simp [resetV, hp, maybeRelease]
    · simp [resetV, hp, iptrSwap, iptrDefault, iptrDtor]
  · intro hne
    unfold resetP
    rw [if_neg hne]
    exact ctorSwapDtor_eq_claimed a r h hne
  · intro he
    unfold resetP
    rw [if_pos he]
  · cases r <;> cases b <;> rfl
  · rfl

/-- C4 witness: on `hOne`, reset() nulls the handle; reset to a different
pointer follows release-then-acquire; reset to the held pointer is the
identity; the unguarded three-argument reset stores the new pointer. -/
theorem reset_spec_amended_witness :
    (resetV ⟨some 0⟩ hOne).1.ptr = none ∧
    resetP ⟨some 0⟩ (some 1) hOne = resetPClaimed ⟨some 0⟩ (some 1) hOne ∧
    resetP ⟨some 0⟩ (some 0) hOne = (⟨some 0⟩, hOne) ∧
    (resetPB ⟨some 0⟩ (some 1) false hOne).1.ptr = some 1 := by
  refine ⟨(reset_spec_amended ⟨some 0⟩ (some 1) false hOne).1.1, ?_, ?_, ?_⟩
  · exact (reset_spec_amended ⟨some 0⟩ (some 1) false hOne).2.1 (by decide)
  · exact (reset_spec_amended ⟨some 0⟩ (some 0) false hOne).2.2.1 rfl
  · exact (reset_spec_amended ⟨some 0⟩ (some 1) false hOne).2.2.2.1

/-- C6: dereferencing a null handle through operator* or operator-> is an
assertion violation (modelled as `none`); on a non-null handle operator*
returns the pointee, operator-> returns the stored pointer, and neither
modifies the handle or the heap (so no counter changes). -/
theorem deref_assertion_spec (a : iptr) (h : Heap) :
    ((derefStar a h).1 = none ↔ a.ptr = none) ∧
    (∀ o, a.ptr = some o → (derefStar a h).1 = some o) ∧
    (derefStar a h).2.1 = a ∧ (derefStar a h).2.2 = h ∧
    ((derefArrow a h).1 = none ↔ a.ptr = none) ∧
    (a.ptr ≠ none → (derefArrow a h).1 = some a.get) ∧
    (derefArrow a h).2.1 = a ∧ (derefArrow a h).2.2 = h := by
  obtain ⟨ap⟩ := a
  cases ap <;> simp [derefStar, derefArrow, iptr.get]

/-- C6 witness: dereferencing a handle on object 0 yields the pointee and
the stored pointer; dereferencing a null handle is the assertion
violation. -/
theorem deref_assertion_spec_witness :
    (derefStar ⟨some 0⟩ hOne).1 = some 0 ∧
    (derefArrow ⟨some 0⟩ hOne).1 = some (some 0) ∧
    (derefStar ⟨none⟩ hOne).1 = none := by
  refine ⟨(deref_assertion_spec ⟨some 0⟩ hOne).2.1 0 rfl, ?_, ?_⟩
  · exact (deref_assertion_spec ⟨some 0⟩ hOne).2.2.2.2.2.1 (by decide)
  · exact (deref_assertion_spec ⟨none⟩ hOne).1.mpr rfl

/-- C7: detach returns the stored pointer and nulls the handle without
touching any counter, and rebuilding a handle from the detached pointer
with acquire false yields a handle holding the same object with the
counter still unchanged — detach followed by adopt is a net no-op on the
count. -/
theorem detach_adopt_roundtrip (a : iptr) (h : Heap) (o : ObjId) (n : Nat)
    (hp : a.ptr = some o) (hc : h o = some n) :
    (iptrDetach a).1 = some o ∧ (iptrDetach a).2.ptr = none ∧
    (iptrCtor (iptrDetach a).1 false h).1.ptr = some o ∧
    (iptrCtor (iptrDetach a).1 false h).2 = h ∧
    (iptrCtor (iptrDetach a).1 false h).2 o = some n := by
  refine ⟨hp, rfl, ?_, ?_, ?_⟩
  · show (iptrCtor a.ptr false h).1.ptr = some o
    rw [hp]
    rfl
  · show (iptrCtor a.ptr false h).2 = h
    rw [hp]
    rfl
  · show (iptrCtor a.ptr false h).2 o = some n
    rw [hp]
    exact hc

/-- C7 witness: detaching the handle on object 0 of `hOne` and adopting
the returned pointer without acquiring keeps the counter at 1. -/
theorem detach_adopt_roundtrip_witness :
    (iptrDetach ⟨some 0⟩).1 = some 0 ∧ (iptrDetach ⟨some 0⟩).2.ptr = none ∧
    (iptrCtor (iptrDetach ⟨some 0⟩).1 false hOne).1.ptr = some 0 ∧
    (iptrCtor (iptrDetach ⟨some 0⟩).1 false hOne).2 = hOne ∧
    (iptrCtor (iptrDetach ⟨some 0⟩).1 false hOne).2 0 = some 1 :=
  detach_adopt_roundtrip ⟨some 0⟩ hOne 0 1 rfl rfl

/-- C8 (the construction half, the well-defined part of the code): the
embedded counter is never copied from a source instance — default
construction and copy construction both initialize it to 0 regardless
of the source's counter, so `use_count()` on a fresh instance reads 0.
The copy-assignment half of the claim is deliberately not modelled: the
source's `operator=` returns `intrusive_ref_counter&` but has no return
statement, so every call flows off the end of a value-returning
function — undefined behavior — and the code guarantees nothing about
the target's counter there. -/
theorem counter_never_copied (src : Nat) :
    use_count ref_counter_default = 0 ∧
    ref_counter_copy src = 0 ∧
    use_count (ref_counter_copy src) = 0 :=
  ⟨rfl, rfl, rfl⟩

/-- C9 (the == and != family): handle/handle and mixed
handle/raw-pointer equality and inequality are exactly raw-pointer
identity comparisons on get(), including null cases. The ordered
comparison is not modelled: its body, std::less(a.get(), b.get()),
attempts class-template-argument deduction of std::less from two
arguments, which is ill-formed, so no instantiation of operator<
compiles. -/
theorem pointer_identity_comparisons (a b : iptr) (r : Ptr) :
    (eqPP a b = true ↔ a.get = b.get) ∧ (nePP a b = true ↔ a.get ≠ b.get) ∧
    (eqPR a r = true ↔ a.get = r) ∧ (nePR a r = true ↔ a.get ≠ r) ∧
    (eqRP r b = true ↔ r = b.get) ∧ (neRP r b = true ↔ r ≠ b.get) := by
  refine ⟨?_, ?_, ?_, ?_, ?_, ?_⟩ <;> simp [eqPP, nePP, eqPR, nePR, eqRP, neRP]

/-- C10: reset(r) and operator=(r) with a raw pointer equal to the held
pointer perform no AddRef and no Release at all — handle and heap are
returned untouched and the object is never destroyed by the call, even
when the handle held the only outstanding reference. -/
theorem raw_self_reset_noop (a : iptr) (r : Ptr) (h : Heap) (he : a.ptr = r) :
    resetP a r h = (a, h) ∧ assignP a r h = (a, h) := by
  constructor
  · unfold resetP
    rw [if_pos he]
  · unfold assignP
    rw [if_pos he]

/-- C10 witness: on `hOne` (the handle holds the only reference, counter
1), reset and raw-pointer assignment to the held pointer leave handle
and heap untouched. -/
theorem raw_self_reset_noop_witness :
    resetP ⟨some 0⟩ (some 0) hOne = (⟨some 0⟩, hOne) ∧
    assignP ⟨some 0⟩ (some 0) hOne = (⟨some 0⟩, hOne) :=
  raw_self_reset_noop ⟨some 0⟩ (some 0) hOne rfl

end IntrusivePtr
